import Mathlib

/-!
A shallow embedding of the Groot content-addressable version-control
engine (src/groot.mjs) and proofs of its specified properties.

The filesystem state visible to the program is modelled explicitly:
the `HEAD` file, the `index` file, the `objects` directory (a map from
hex-hash filename to file content) and the surrounding working
directory that `add` reads from.  JavaScript `null`/`undefined` results
of `fs.readFile` are modelled with `Option`; thrown exceptions with
explicit error values.  The SHA-1 digest (`crypto.createHash("sha1")`)
is an external library call and is modelled as a parameter
`hashObject : String → String`, as is customary for cryptographic
primitives.  JSON serialization of commit records (`JSON.stringify`)
is embedded concretely, field by field, in source order.
-/

namespace Groot

/-- An entry of the staging index: `{ path: filePath, hash: fileHash }`
as pushed by `updateStagingArea`. -/
structure IndexEntry where
  path : String
  hash : String
deriving DecidableEq, Repr

/-- A commit record, as assembled in `commit`:
`{ timeStamp, message, files, parent }`. `parent` is the value returned
by `getCurrentHead()`: a string, or JavaScript `null` (modelled `none`). -/
structure Commit where
  timeStamp : String
  message : String
  files : List IndexEntry
  parent : Option String
deriving DecidableEq, Repr

/-- Content of a file in the `.groot/objects` directory: either raw blob
content written by `add`, or a serialized commit record written by
`commit`.  The model stores the parsed form; reading it back as text is
`Obj.rawContent`, and `JSON.parse` of a stored commit is modelled as
recovering the record (exact JSON round-trip). -/
inductive Obj where
  | blob (content : String)
  | commit (c : Commit)
deriving DecidableEq, Repr

/-- The raw text stored in an object file. -/
def jsonHexDigit (n : Nat) : Char :=
  if n < 10 then Char.ofNat (48 + n) else Char.ofNat (87 + n)

/-- JSON string-character escaping as performed by `JSON.stringify`. -/
def jsonEscapeChar (c : Char) : String :=
  if c = '"' then "\\\""
  else if c = '\\' then "\\\\"
  else if c = '\x08' then "\\b"
  else if c = '\x09' then "\\t"
  else if c = '\x0a' then "\\n"
  else if c = '\x0c' then "\\f"
  else if c = '\x0d' then "\\r"
  else if c.toNat < 32 then
    "\\u00" ++ String.mk [jsonHexDigit (c.toNat / 16), jsonHexDigit (c.toNat % 16)]
  else String.singleton c

/-- `JSON.stringify` of a string value. -/
def jsonQuote (s : String) : String :=
  "\"" ++ String.join (s.data.map jsonEscapeChar) ++ "\""

/-- `JSON.stringify` of one index entry `{ path, hash }` (insertion
order of the object literal in `updateStagingArea`). -/
def serializeEntry (e : IndexEntry) : String :=
  "\x7b\"path\":" ++ jsonQuote e.path ++ ",\"hash\":" ++ jsonQuote e.hash ++ "\x7d"

/-- `JSON.stringify` of the `files` array. -/
def serializeEntries (l : List IndexEntry) : String :=
  "[" ++ String.intercalate "," (l.map serializeEntry) ++ "]"

/-- `JSON.stringify(commitData)` with the field order of the object
literal in `commit`: timeStamp, message, files, parent.  A `null`
parent serializes as `null`. -/
def serializeCommit (c : Commit) : String :=
  "\x7b\"timeStamp\":" ++ jsonQuote c.timeStamp
    ++ ",\"message\":" ++ jsonQuote c.message
    ++ ",\"files\":" ++ serializeEntries c.files
    ++ ",\"parent\":"
    ++ (match c.parent with
        | none => "null"
        | some s => jsonQuote s)
    ++ "\x7d"

/-- The filesystem state the program manipulates.  `headFile` and
`indexFile` are `none` when the corresponding file is absent (so that
`fs.readFile` on it throws); `objects` maps a hash filename to the
object stored under it; `workdir` is the surrounding working directory
read by `add`. -/
structure FS where
  headFile : Option String
  indexFile : Option (List IndexEntry)
  objects : String → Option Obj
  workdir : String → Option String

/-- Write an object file: `objects` after `fs.writeFile(path.join(objectsPath, h), v)`. -/
def setObj (m : String → Option Obj) (k : String) (v : Obj) : String → Option Obj :=
  fun x => if x = k then some v else m x

/-- Errors surfaced by the modelled operations (JavaScript exceptions). -/
inductive JsError where
  | fileNotFoundError   -- fs.readFile threw ENOENT
  | indexReadError      -- fs.readFile on the index file threw
  | syntaxError         -- JSON.parse threw
  | typeError           -- diffLines applied to undefined threw
  | nonTermination      -- fuel exhausted: the JS loop would not have terminated
deriving DecidableEq, Repr

/-- JavaScript truthiness of a string-or-null value:
`null` and `""` are falsy, every other string truthy. -/
def jsTruthy : Option String → Bool
  | none => false
  | some s => s != ""

/-- `init()`: creates the objects directory, then writes `HEAD` as `""`
and `index` as `[]` with flag `"wx"` (fails if the file exists).  If the
`HEAD` write throws because the file exists, the `index` write is never
attempted (both are inside one try block); if `HEAD` is written and the
`index` write throws, the error is caught and only logged. -/
def init (fs : FS) : FS :=
  match fs.headFile with
  | some _ => fs
  | none =>
    let fs1 : FS := { fs with headFile := some "" }
    match fs1.indexFile with
    | some _ => fs1
    | none => { fs1 with indexFile := some ([] : List IndexEntry) }

/-- `getCurrentHead()`: the content of the `HEAD` file, or `null`
(modelled `none`) when reading it throws. -/
def getCurrentHead (fs : FS) : Option String :=
  fs.headFile

variable (hashObject : String → String)

/-- `updateStagingArea(filePath, fileHash)`: parse the index file, push
`{ path: filePath, hash: fileHash }`, write it back.  If the index file
cannot be read the exception propagates. -/
def updateStagingArea (fs : FS) (filePath fileHash : String) :
    FS × Option JsError :=
  match fs.indexFile with
  | none => (fs, some JsError.indexReadError)
  | some index =>
    ({ fs with indexFile := some (index ++ [⟨filePath, fileHash⟩]) }, none)

/-- `add(fileToBeAdded)`: read the file from the working directory
(ENOENT propagates before anything is written), hash its content, write
the blob into the object store, then append to the staging area. -/
def add (fs : FS) (fileToBeAdded : String) : FS × Option JsError :=
  match fs.workdir fileToBeAdded with
  | none => (fs, some JsError.fileNotFoundError)
  | some fileData =>
    let fileHash := hashObject fileData
    let fs1 : FS := { fs with objects := setObj fs.objects fileHash (Obj.blob fileData) }
    updateStagingArea fs1 fileToBeAdded fileHash

/-- The commit record assembled in `commit` from the parsed index and
`getCurrentHead()` (the timestamp is passed in, standing for
`new Date().toISOString()`). -/
def commitRecord (fs : FS) (ts message : String) (index : List IndexEntry) : Commit :=
  ⟨ts, message, index, getCurrentHead fs⟩

/-- `commit(message)`: parse the index file (an unreadable index file
throws), assemble the record, hash its serialization, then write the
commit object, write `HEAD`, and reset the index to `[]`, in that
order.  Returns the new commit hash. -/
def commit (fs : FS) (ts message : String) : FS × Except JsError String :=
  match fs.indexFile with
  | none => (fs, Except.error JsError.indexReadError)
  | some index =>
    let commitData := commitRecord fs ts message index
    let commitHash := hashObject (serializeCommit commitData)
    ({ fs with
        objects := setObj fs.objects commitHash (Obj.commit commitData),
        headFile := some commitHash,
        indexFile := some ([] : List IndexEntry) },
      Except.ok commitHash)

/-- One filesystem write performed by `commit`. -/
inductive Ev where
  | writeObject (h : String) (o : Obj)
  | writeHead (h : String)
  | writeIndex (l : List IndexEntry)
deriving DecidableEq, Repr

/-- Apply one write to the filesystem state. -/
def applyEv (fs : FS) : Ev → FS
  | Ev.writeObject h o => { fs with objects := setObj fs.objects h o }
  | Ev.writeHead h => { fs with headFile := some h }
  | Ev.writeIndex l => { fs with indexFile := some l }

/-- The ordered trace of writes `commit` performs after parsing the
index: object file first, then `HEAD`, then the index reset (source
lines 70–72). -/
def commitEvents (fs : FS) (ts message : String) : List Ev :=
  match fs.indexFile with
  | none => []
  | some index =>
    let commitData := commitRecord fs ts message index
    let commitHash := hashObject (serializeCommit commitData)
    [Ev.writeObject commitHash (Obj.commit commitData),
     Ev.writeHead commitHash,
     Ev.writeIndex ([] : List IndexEntry)]

/-- The `while (currentCommitHash)` loop of `log()`: starting from a
hash-or-null value, read the object file (a missing file throws), parse
it as a commit (parsing a file that does not hold a serialized commit
record throws), record the commit, and continue at its `parent` until
the value is falsy.  The JS loop never terminates on a cyclic parent
chain; the `fuel` argument makes the model total, and exhausting it on
a still-truthy value reports `nonTermination`. -/
def traverse (objects : String → Option Obj) :
    Option String → Nat → Except JsError (List (String × Commit))
  | cur, 0 =>
    if jsTruthy cur then Except.error JsError.nonTermination else Except.ok []
  | none, _ + 1 => Except.ok []
  | some h, fuel + 1 =>
    if h = "" then Except.ok []
    else
      match objects h with
      | none => Except.error JsError.fileNotFoundError
      | some (Obj.blob _) => Except.error JsError.syntaxError
      | some (Obj.commit c) =>
        match traverse objects c.parent fuel with
        | Except.ok l => Except.ok ((h, c) :: l)
        | Except.error e => Except.error e

/-- `log()`: traverse from `getCurrentHead()`, yielding the printed
`(hash, commit)` pairs most-recent-first. -/
def log (fs : FS) (fuel : Nat) : Except JsError (List (String × Commit)) :=
  traverse fs.objects (getCurrentHead fs) fuel

/-- `getCommitData(commitHash)`: the raw object file content, or
`undefined` (after logging "Failed to fetch the commit data") when the
read throws. -/
def getCommitData (fs : FS) (commitHash : String) : Option Obj :=
  fs.objects commitHash

/-- One line of console output produced by `showCommitDiff` and its
helpers. -/
inductive OutLine where
  | failedFetch               -- "Failed to fetch the commit data"
  | commitNotFound            -- "Commit Not found"
  | changesHeader             -- "Changes in the last commit are : "
  | fileHeader (p : String)   -- `File:${file.path}`
  | fileNotExist              -- "File does not exist" (getFileContent miss)
  | diffHeader                -- "\nDiff:"
  | diffOut (oldText newText : String)  -- the colored diffLines rendering
  | newFile                   -- "New file in this commit"
  | firstCommit               -- "first commit - so no parent to compare and get the diff"
deriving DecidableEq, Repr

/-- `getFileContent(fileHash)`: the raw text of the object file, or
`undefined` after logging "File does not exist" when the read throws.
A stored commit object read as a file yields its serialized text. -/
def getFileContent (fs : FS) (fileHash : String) : Option String × List OutLine :=
  match fs.objects fileHash with
  | some (Obj.blob s) => (some s, [])
  | some (Obj.commit c) => (some (serializeCommit c), [])
  | none => (none, [OutLine.fileNotExist])

/-- `getParentFileContent(parentCommitData, filePath)`: the first entry
of the parent commit's `files` with the given path, if any, read
through `getFileContent`; `undefined` when the path is absent. -/
def getParentFileContent (fs : FS) (parentCommitData : Commit) (filePath : String) :
    Option String × List OutLine :=
  match parentCommitData.files.find? (fun file => file.path == filePath) with
  | some parentFile => getFileContent fs parentFile.hash
  | none => (none, [])

/-- The `for (const file of commitData.files)` loop of `showCommitDiff`:
for each file, print its header, read its content and the parent's
version; when the parent has the path, print the diff (applying
`diffLines` to an `undefined` current content throws a TypeError,
aborting the loop with the output produced so far); otherwise report a
new file.  `diffOut old new` records that the external `diffLines`
rendering of that pair was printed. -/
def showFiles (fs : FS) (parentCommitData : Commit) :
    List IndexEntry → List OutLine × Option JsError
  | [] => ([], none)
  | file :: rest =>
    let fc := getFileContent fs file.hash
    let pfc := getParentFileContent fs parentCommitData file.path
    let logs := OutLine.fileHeader file.path :: (fc.2 ++ pfc.2)
    match pfc.1 with
    | some parentFileContent =>
      match fc.1 with
      | none => (logs ++ [OutLine.diffHeader], some JsError.typeError)
      | some fileContent =>
        let r := showFiles fs parentCommitData rest
        (logs ++ [OutLine.diffHeader, OutLine.diffOut parentFileContent fileContent]
           ++ r.1, r.2)
    | none =>
      let r := showFiles fs parentCommitData rest
      (logs ++ [OutLine.newFile] ++ r.1, r.2)

/-- `showCommitDiff(commitHash)`: fetch and parse the commit
(`JSON.parse` of the `undefined` returned by a failed fetch throws a
SyntaxError before the `!commitData` guard can run, so the guard's
"Commit Not found" branch is unreachable for a missing hash; parsing a
raw blob as a commit record is likewise modelled as a parse failure),
print the header, then either compare each file against the parent
commit or report that the first commit has no parent.  Returns the
console output together with the exception, if one aborted the
operation. -/
def showCommitDiff (fs : FS) (commitHash : String) :
    List OutLine × Option JsError :=
  match getCommitData fs commitHash with
  | none => ([OutLine.failedFetch], some JsError.syntaxError)
  | some (Obj.blob _) => ([], some JsError.syntaxError)
  | some (Obj.commit commitData) =>
    match commitData.parent with
    | some parentCommitHash =>
      if parentCommitHash = "" then
        ([OutLine.changesHeader, OutLine.firstCommit], none)
      else
        match getCommitData fs parentCommitHash with
        | none => ([OutLine.changesHeader, OutLine.failedFetch], some JsError.syntaxError)
        | some (Obj.blob _) => ([OutLine.changesHeader], some JsError.syntaxError)
        | some (Obj.commit parentCommitData) =>
          let r := showFiles fs parentCommitData commitData.files
          (OutLine.changesHeader :: r.1, r.2)
    | none => ([OutLine.changesHeader, OutLine.firstCommit], none)

/-- Run `add` on each path in order, stopping at the first thrown
error, as successive CLI invocations would. -/
def addAll (fs : FS) : List String → FS × Option JsError
  | [] => (fs, none)
  | p :: rest =>
    match add hashObject fs p with
    | (fs1, some e) => (fs1, some e)
    | (fs1, none) => addAll fs1 rest

/-- Run `commit` on each (timestamp, message) pair in order. -/
def commitN (fs : FS) : List (String × String) → FS
  | [] => fs
  | (ts, message) :: rest => commitN (commit hashObject fs ts message).1 rest

/-- The chain of `(hash, commit)` records produced by successive
commits, oldest first: the first commit snapshots the index as it
stands and links to the given parent value, each later one has an empty
file list (the index was reset) and links to its predecessor's hash. -/
def histFrom (parent0 : Option String) (index0 : List IndexEntry) :
    List (String × String) → List (String × Commit)
  | [] => []
  | (ts, message) :: rest =>
    let c : Commit := ⟨ts, message, index0, parent0⟩
    let h := hashObject (serializeCommit c)
    (h, c) :: histFrom (some h) ([] : List IndexEntry) rest

/-- A concrete "hash" used to evaluate the model on closed inputs: the
identity on the serialized text (collision-free on the inputs used). -/
def idHash : String → String := fun s => s

/-- A bare filesystem: no repository files, empty working directory. -/
def emptyFS : FS :=
  { headFile := none, indexFile := none,
    objects := fun _ => none, workdir := fun _ => none }

/-- The state `init` produces on a bare filesystem: `HEAD` holds `""`,
the index holds `[]`. -/
def freshFS : FS := init emptyFS

/-- A state whose `HEAD` file is absent but whose index is readable. -/
def fsWithIndex : FS := { emptyFS with indexFile := some ([] : List IndexEntry) }

/-- A fresh repository whose working directory holds two files with
identical content. -/
def fsDup : FS :=
  { freshFS with
      workdir := fun p =>
        if p = "a.txt" then some "hello"
        else if p = "b.txt" then some "hello" else none }

/-- A commit record whose parent is the empty string, as the first
commit after `init` stores it. -/
def cFirst : Commit := ⟨"t0", "first", [], some ""⟩

/-- A repository holding one first commit under the name `"h1"`. -/
def fsShow : FS :=
  { freshFS with
      headFile := some "h1",
      objects := fun k => if k = "h1" then some (Obj.commit cFirst) else none }

theorem setObj_self (m : String → Option Obj) (k : String) (v : Obj) :
    setObj m k v k = some v := by
  simp [setObj]

theorem setObj_ne (m : String → Option Obj) (k : String) (v : Obj) (x : String)
    (h : x ≠ k) : setObj m k v x = m x := by
  simp [setObj, h]

/-- The prefixes of a three-element list. -/
theorem prefix_of_three {α : Type} {a b c : α} {p : List α} (h : p <+: [a, b, c]) :
    p = [] ∨ p = [a] ∨ p = [a, b] ∨ p = [a, b, c] := by
  obtain ⟨t, ht⟩ := h
  match p with
  | [] => exact Or.inl rfl
  | [x] =>
    simp at ht
    exact Or.inr (Or.inl (by rw [ht.1]))
  | [x, y] =>
    simp at ht
    exact Or.inr (Or.inr (Or.inl (by rw [ht.1, ht.2.1])))
  | [x, y, z] =>
    simp at ht
    exact Or.inr (Or.inr (Or.inr (by rw [ht.1, ht.2.1, ht.2.2.1])))
  | x :: y :: z :: w :: r =>
    exfalso
    have hl := congrArg List.length ht
    simp at hl

/-- Reduction of `commit` when the index file is readable. -/
theorem commit_some (fs : FS) (ts message : String) (index : List IndexEntry)
    (hi : fs.indexFile = some index) :
    commit hashObject fs ts message =
      ({ fs with
          objects := setObj fs.objects
            (hashObject (serializeCommit (commitRecord fs ts message index)))
            (Obj.commit (commitRecord fs ts message index)),
          headFile := some (hashObject (serializeCommit (commitRecord fs ts message index))),
          indexFile := some ([] : List IndexEntry) },
        Except.ok (hashObject (serializeCommit (commitRecord fs ts message index)))) := by
  unfold commit
  rw [hi]

/-- Reduction of `add` when the source file and the index are readable. -/
theorem add_some (fs : FS) (p content : String) (index : List IndexEntry)
    (hw : fs.workdir p = some content) (hi : fs.indexFile = some index) :
    add hashObject fs p =
      ({ fs with
          objects := setObj fs.objects (hashObject content) (Obj.blob content),
          indexFile := some (index ++ [⟨p, hashObject content⟩]) }, none) := by
  unfold add updateStagingArea
  rw [hw]
  show (match fs.indexFile with
    | none => _
    | some index => _) = _
  rw [hi]

/-- The state `commit` produces is exactly the fold of its write trace. -/
theorem commitEvents_foldl (fs : FS) (ts message : String) :
    (commitEvents hashObject fs ts message).foldl applyEv fs
      = (commit hashObject fs ts message).1 := by
  unfold commitEvents commit
  cases fs.indexFile <;> rfl

/-- Reduction of `commitEvents` when the index file is readable. -/
theorem commitEvents_some (fs : FS) (ts message : String) (index : List IndexEntry)
    (hi : fs.indexFile = some index) :
    commitEvents hashObject fs ts message =
      [Ev.writeObject (hashObject (serializeCommit (commitRecord fs ts message index)))
          (Obj.commit (commitRecord fs ts message index)),
       Ev.writeHead (hashObject (serializeCommit (commitRecord fs ts message index))),
       Ev.writeIndex ([] : List IndexEntry)] := by
  unfold commitEvents
  rw [hi]

/-- C1 fails as stated: on the repository state `init` produces from
scratch — the first state of every actual run, since the constructor
always runs `init` — the `HEAD` file exists holding `""`, so the very
first commit is stored with `parent = ""` (the empty string), not
`parent = null`. -/
theorem c1_counterexample :
    getCurrentHead freshFS = some ""
    ∧ (commit idHash freshFS "t0" "first").1.objects
        (idHash (serializeCommit ⟨"t0", "first", [], some ""⟩))
      = some (Obj.commit ⟨"t0", "first", [], some ""⟩)
    ∧ Commit.parent ⟨"t0", "first", [], some ""⟩ ≠ none := by
  refine ⟨rfl, rfl, ?_⟩
  simp

/-- C1 (amended): a commit created while the `HEAD` file is absent —
the only state in which `getCurrentHead()` returns `null` — is stored
with `parent = null`; after `init`, `HEAD` exists holding `""` and the
first commit instead carries `parent = ""`, which every consumer
treats the same as "no parent". -/
theorem c1_parent_null_when_head_absent (fs : FS) (ts message : String)
    (index : List IndexEntry)
    (hh : fs.headFile = none) (hi : fs.indexFile = some index) :
    (commit hashObject fs ts message).1.objects
        (hashObject (serializeCommit ⟨ts, message, index, none⟩))
      = some (Obj.commit ⟨ts, message, index, none⟩)
    ∧ (commit hashObject fs ts message).2
      = Except.ok (hashObject (serializeCommit ⟨ts, message, index, none⟩)) := by
  have hrec : commitRecord fs ts message index = ⟨ts, message, index, none⟩ := by
    unfold commitRecord getCurrentHead
    rw [hh]
  rw [commit_some hashObject fs ts message index hi, hrec]
  exact ⟨setObj_self _ _ _, rfl⟩

theorem c1_parent_null_when_head_absent_witness :
    (commit idHash fsWithIndex "t0" "first").1.objects
        (idHash (serializeCommit ⟨"t0", "first", [], none⟩))
      = some (Obj.commit ⟨"t0", "first", [], none⟩)
    ∧ (commit idHash fsWithIndex "t0" "first").2
      = Except.ok (idHash (serializeCommit ⟨"t0", "first", [], none⟩)) :=
  c1_parent_null_when_head_absent idHash fsWithIndex "t0" "first" [] rfl rfl

/-- C2: `commit` writes the serialized commit object into the object
store strictly before it updates `HEAD`: its write trace folds to the
final commit state, and in the state after every prefix of the trace,
if `HEAD` already names the new commit hash then the commit object is
already stored under that hash. -/
theorem c2_object_before_head (fs : FS) (ts message : String) (index : List IndexEntry)
    (hi : fs.indexFile = some index)
    (hpre : fs.headFile
      ≠ some (hashObject (serializeCommit (commitRecord fs ts message index)))) :
    ((commitEvents hashObject fs ts message).foldl applyEv fs
        = (commit hashObject fs ts message).1)
    ∧ ∀ p, p <+: commitEvents hashObject fs ts message →
        (p.foldl applyEv fs).headFile
            = some (hashObject (serializeCommit (commitRecord fs ts message index))) →
        (p.foldl applyEv fs).objects
            (hashObject (serializeCommit (commitRecord fs ts message index)))
          = some (Obj.commit (commitRecord fs ts message index)) := by
  refine ⟨commitEvents_foldl hashObject fs ts message, ?_⟩
  intro p hp
  rw [commitEvents_some hashObject fs ts message index hi] at hp
  rcases prefix_of_three hp with h | h | h | h <;> subst h
  · intro hhead
    exact absurd hhead hpre
  · intro hhead
    exact absurd hhead hpre
  · intro _
    exact setObj_self _ _ _
  · intro _
    exact setObj_self _ _ _

theorem c2_object_before_head_witness :
    ((commitEvents idHash freshFS "t0" "first").foldl applyEv freshFS
        = (commit idHash freshFS "t0" "first").1)
    ∧ ((commitEvents idHash freshFS "t0" "first").foldl applyEv freshFS).objects
        (idHash (serializeCommit (commitRecord freshFS "t0" "first" [])))
      = some (Obj.commit (commitRecord freshFS "t0" "first" [])) :=
  ⟨(c2_object_before_head idHash freshFS "t0" "first" [] rfl (by decide)).1,
   (c2_object_before_head idHash freshFS "t0" "first" [] rfl (by decide)).2
      (commitEvents idHash freshFS "t0" "first") List.prefix_rfl rfl⟩

/-- C3: for a commit hash absent from the object store,
`showCommitDiff` aborts with an error — `getCommitData` logs the
failed fetch and returns `undefined`, whose `JSON.parse` throws — and
no diff output is produced. -/
theorem c3_show_missing_commit (fs : FS) (commitHash : String)
    (habs : fs.objects commitHash = none) :
    showCommitDiff fs commitHash = ([OutLine.failedFetch], some JsError.syntaxError)
    ∧ (showCommitDiff fs commitHash).2.isSome = true
    ∧ ∀ ol ∈ (showCommitDiff fs commitHash).1, ∀ o n, ol ≠ OutLine.diffOut o n := by
  have h : showCommitDiff fs commitHash
      = ([OutLine.failedFetch], some JsError.syntaxError) := by
    unfold showCommitDiff getCommitData
    rw [habs]
  refine ⟨h, by rw [h]; rfl, ?_⟩
  rw [h]
  intro ol hol o n
  simp at hol
  subst hol
  simp

theorem c3_show_missing_commit_witness :
    showCommitDiff freshFS "deadbeef" = ([OutLine.failedFetch], some JsError.syntaxError)
    ∧ (showCommitDiff freshFS "deadbeef").2.isSome = true :=
  ⟨(c3_show_missing_commit freshFS "deadbeef" rfl).1,
   (c3_show_missing_commit freshFS "deadbeef" rfl).2.1⟩

/-- C4: after a successful `commit`, the index file holds the empty
sequence, `HEAD` holds the hash of the new commit, and the commit
object is persisted under that hash. -/
theorem c4_commit_clears_index_updates_head (fs : FS) (ts message : String)
    (index : List IndexEntry) (hi : fs.indexFile = some index) :
    (commit hashObject fs ts message).2
        = Except.ok (hashObject (serializeCommit (commitRecord fs ts message index)))
    ∧ (commit hashObject fs ts message).1.indexFile = some ([] : List IndexEntry)
    ∧ (commit hashObject fs ts message).1.headFile
        = some (hashObject (serializeCommit (commitRecord fs ts message index)))
    ∧ (commit hashObject fs ts message).1.objects
        (hashObject (serializeCommit (commitRecord fs ts message index)))
      = some (Obj.commit (commitRecord fs ts message index)) := by
  rw [commit_some hashObject fs ts message index hi]
  exact ⟨rfl, rfl, rfl, setObj_self _ _ _⟩

theorem c4_commit_clears_index_updates_head_witness :
    (commit idHash freshFS "t0" "first").2
        = Except.ok (idHash (serializeCommit (commitRecord freshFS "t0" "first" [])))
    ∧ (commit idHash freshFS "t0" "first").1.indexFile = some ([] : List IndexEntry)
    ∧ (commit idHash freshFS "t0" "first").1.headFile
        = some (idHash (serializeCommit (commitRecord freshFS "t0" "first" [])))
    ∧ (commit idHash freshFS "t0" "first").1.objects
        (idHash (serializeCommit (commitRecord freshFS "t0" "first" [])))
      = some (Obj.commit (commitRecord freshFS "t0" "first" [])) :=
  c4_commit_clears_index_updates_head idHash freshFS "t0" "first" [] rfl

/-- C5: `add` on a path absent from the working directory throws before
writing anything: the error is the file-not-found failure and the whole
state — object store and index included — is unchanged. -/
theorem c5_add_missing_file (fs : FS) (p : String) (hw : fs.workdir p = none) :
    add hashObject fs p = (fs, some JsError.fileNotFoundError)
    ∧ (add hashObject fs p).1.objects = fs.objects
    ∧ (add hashObject fs p).1.indexFile = fs.indexFile := by
  have h : add hashObject fs p = (fs, some JsError.fileNotFoundError) := by
    unfold add
    rw [hw]
  exact ⟨h, by rw [h], by rw [h]⟩

theorem c5_add_missing_file_witness :
    add idHash freshFS "missing.txt" = (freshFS, some JsError.fileNotFoundError)
    ∧ (add idHash freshFS "missing.txt").1.objects = freshFS.objects
    ∧ (add idHash freshFS "missing.txt").1.indexFile = freshFS.indexFile :=
  c5_add_missing_file idHash freshFS "missing.txt" rfl

/-- C6: adding the same content twice stages the same hash both times,
the second store write is a no-op on the object store, and — starting
from an empty store — exactly the one key `hashObject content` holds
a blob with that content. -/
theorem c6_put_idempotent (fs : FS) (p1 p2 content : String) (index : List IndexEntry)
    (hw1 : fs.workdir p1 = some content) (hw2 : fs.workdir p2 = some content)
    (hi : fs.indexFile = some index)
    (hobj : ∀ k, fs.objects k = none) :
    (add hashObject (add hashObject fs p1).1 p2).1.indexFile
        = some (index ++ [⟨p1, hashObject content⟩, ⟨p2, hashObject content⟩])
    ∧ (add hashObject (add hashObject fs p1).1 p2).1.objects
        = (add hashObject fs p1).1.objects
    ∧ ∀ k, ((add hashObject (add hashObject fs p1).1 p2).1.objects k
        = some (Obj.blob content) ↔ k = hashObject content) := by
  have h1 := add_some hashObject fs p1 content index hw1 hi
  rw [h1]
  have h2 := add_some hashObject
      ({ fs with
          objects := setObj fs.objects (hashObject content) (Obj.blob content),
          indexFile := some (index ++ [⟨p1, hashObject content⟩]) })
      p2 content (index ++ [⟨p1, hashObject content⟩]) hw2 rfl
  rw [h2]
  refine ⟨by simp, ?_, ?_⟩
  · funext x
    by_cases hx : x = hashObject content <;> simp [setObj, hx]
  · intro k
    by_cases hk : k = hashObject content
    · subst hk
      simp [setObj]
    · simp [setObj, hk, hobj k]

theorem c6_put_idempotent_witness :
    (add idHash (add idHash fsDup "a.txt").1 "b.txt").1.indexFile
        = some [⟨"a.txt", idHash "hello"⟩, ⟨"b.txt", idHash "hello"⟩]
    ∧ (add idHash (add idHash fsDup "a.txt").1 "b.txt").1.objects
        = (add idHash fsDup "a.txt").1.objects
    ∧ ((add idHash (add idHash fsDup "a.txt").1 "b.txt").1.objects (idHash "hello")
        = some (Obj.blob "hello") ↔ idHash "hello" = idHash "hello") :=
  ⟨(c6_put_idempotent idHash fsDup "a.txt" "b.txt" "hello" [] rfl rfl rfl
      (fun _ => rfl)).1,
   (c6_put_idempotent idHash fsDup "a.txt" "b.txt" "hello" [] rfl rfl rfl
      (fun _ => rfl)).2.1,
   (c6_put_idempotent idHash fsDup "a.txt" "b.txt" "hello" [] rfl rfl rfl
      (fun _ => rfl)).2.2 (idHash "hello")⟩

/-- `addAll` on readable paths succeeds and appends one entry per add,
in order, leaving the working directory and `HEAD` untouched. -/
theorem addAll_ok (content : String → String) (paths : List String) :
    ∀ (fs : FS) (index : List IndexEntry),
      (∀ p ∈ paths, fs.workdir p = some (content p)) →
      fs.indexFile = some index →
      (addAll hashObject fs paths).2 = none
      ∧ (addAll hashObject fs paths).1.indexFile
          = some (index ++ paths.map (fun p => ⟨p, hashObject (content p)⟩))
      ∧ (addAll hashObject fs paths).1.workdir = fs.workdir
      ∧ (addAll hashObject fs paths).1.headFile = fs.headFile := by
  induction paths with
  | nil =>
    intro fs index hw hi
    refine ⟨rfl, ?_, rfl, rfl⟩
    simp [addAll, hi]
  | cons p rest ih =>
    intro fs index hw hi
    have h1 := add_some hashObject fs p (content p) index
      (hw p (List.mem_cons_self p rest)) hi
    have ihh := ih
      ({ fs with
          objects := setObj fs.objects (hashObject (content p)) (Obj.blob (content p)),
          indexFile := some (index ++ [⟨p, hashObject (content p)⟩]) })
      (index ++ [⟨p, hashObject (content p)⟩])
      (fun q hq => hw q (List.mem_cons_of_mem p hq))
      rfl
    unfold addAll
    rw [h1]
    refine ⟨ihh.1, ?_, ihh.2.2.1, ihh.2.2.2⟩
    rw [ihh.2.1]
    simp

/-- C7: the staged entries appear in add order, one entry per add even
for a repeated path, and the whole sequence persists verbatim as the
`files` list of the next commit's record. -/
theorem c7_index_order_and_commit (content : String → String) (fs : FS)
    (paths : List String) (index : List IndexEntry) (ts message : String)
    (hw : ∀ p ∈ paths, fs.workdir p = some (content p))
    (hi : fs.indexFile = some index) :
    (addAll hashObject fs paths).2 = none
    ∧ (addAll hashObject fs paths).1.indexFile
        = some (index ++ paths.map (fun p => ⟨p, hashObject (content p)⟩))
    ∧ (commit hashObject (addAll hashObject fs paths).1 ts message).1.objects
        (hashObject (serializeCommit
          (commitRecord (addAll hashObject fs paths).1 ts message
            (index ++ paths.map (fun p => ⟨p, hashObject (content p)⟩)))))
      = some (Obj.commit
          (commitRecord (addAll hashObject fs paths).1 ts message
            (index ++ paths.map (fun p => ⟨p, hashObject (content p)⟩))))
    ∧ (commitRecord (addAll hashObject fs paths).1 ts message
        (index ++ paths.map (fun p => ⟨p, hashObject (content p)⟩))).files
      = index ++ paths.map (fun p => ⟨p, hashObject (content p)⟩) := by
  obtain ⟨h2, hidx, hwd, hhd⟩ := addAll_ok hashObject content paths fs index hw hi
  refine ⟨h2, hidx, ?_, rfl⟩
  rw [commit_some hashObject _ ts message _ hidx]
  exact setObj_self _ _ _

theorem c7_index_order_and_commit_witness :
    (addAll idHash fsDup ["a.txt", "a.txt"]).2 = none
    ∧ (addAll idHash fsDup ["a.txt", "a.txt"]).1.indexFile
        = some [⟨"a.txt", idHash "hello"⟩, ⟨"a.txt", idHash "hello"⟩]
    ∧ (commitRecord (addAll idHash fsDup ["a.txt", "a.txt"]).1 "t0" "first"
        [⟨"a.txt", idHash "hello"⟩, ⟨"a.txt", idHash "hello"⟩]).files
      = [⟨"a.txt", idHash "hello"⟩, ⟨"a.txt", idHash "hello"⟩] :=
  ⟨(c7_index_order_and_commit idHash (fun _ => "hello") fsDup ["a.txt", "a.txt"]
      [] "t0" "first" (by intro p hp; simp at hp; subst hp; rfl) rfl).1,
   (c7_index_order_and_commit idHash (fun _ => "hello") fsDup ["a.txt", "a.txt"]
      [] "t0" "first" (by intro p hp; simp at hp; subst hp; rfl) rfl).2.1,
   (c7_index_order_and_commit idHash (fun _ => "hello") fsDup ["a.txt", "a.txt"]
      [] "t0" "first" (by intro p hp; simp at hp; subst hp; rfl) rfl).2.2.2⟩

/-- C9 fails as stated: `commit` never checks for an empty staging
index.  On the fresh repository, `commit` with an empty index succeeds,
persists a commit object with an empty `files` list, and moves `HEAD`
— there is no "nothing to commit" outcome. -/
theorem c9_counterexample :
    freshFS.indexFile = some ([] : List IndexEntry)
    ∧ (commit idHash freshFS "t0" "empty").2
        = Except.ok (idHash (serializeCommit ⟨"t0", "empty", [], some ""⟩))
    ∧ (commit idHash freshFS "t0" "empty").1.objects
        (idHash (serializeCommit ⟨"t0", "empty", [], some ""⟩))
      = some (Obj.commit ⟨"t0", "empty", [], some ""⟩)
    ∧ (commit idHash freshFS "t0" "empty").1.headFile ≠ freshFS.headFile := by
  refine ⟨rfl, rfl, rfl, ?_⟩
  decide

/-- C9 (amended): when the staging index is empty, `commit` silently
succeeds as an empty commit: it persists a commit object whose `files`
list is empty and updates `HEAD` to its hash. -/
theorem c9_empty_commit_succeeds (fs : FS) (ts message : String)
    (hi : fs.indexFile = some ([] : List IndexEntry)) :
    (commit hashObject fs ts message).2
        = Except.ok (hashObject (serializeCommit
            (commitRecord fs ts message ([] : List IndexEntry))))
    ∧ (commit hashObject fs ts message).1.headFile
        = some (hashObject (serializeCommit
            (commitRecord fs ts message ([] : List IndexEntry))))
    ∧ (commit hashObject fs ts message).1.objects
        (hashObject (serializeCommit (commitRecord fs ts message ([] : List IndexEntry))))
      = some (Obj.commit (commitRecord fs ts message ([] : List IndexEntry)))
    ∧ (commitRecord fs ts message ([] : List IndexEntry)).files = [] := by
  rw [commit_some hashObject fs ts message ([] : List IndexEntry) hi]
  exact ⟨rfl, rfl, setObj_self _ _ _, rfl⟩

/-- Traversal from a falsy start value (null head or empty-string
head) yields no commits, with any fuel. -/
theorem traverse_falsy (objects : String → Option Obj) (cur : Option String)
    (fuel : Nat) (h : jsTruthy cur = false) :
    traverse objects cur fuel = Except.ok [] := by
  cases cur with
  | none =>
    cases fuel with
    | zero => simp [traverse, jsTruthy]
    | succ f => simp [traverse]
  | some s =>
    have hs : s = "" := by simpa [jsTruthy] using h
    subst hs
    cases fuel with
    | zero => simp [traverse, jsTruthy]
    | succ f => simp [traverse]

/-- Writing an object under a key the traversal never reads leaves the
traversal's result unchanged. -/
theorem traverse_update (objects : String → Option Obj) (k : String) (v : Obj) :
    ∀ (fuel : Nat) (cur : Option String) (l : List (String × Commit)),
      traverse objects cur fuel = Except.ok l →
      k ∉ l.map Prod.fst →
      traverse (setObj objects k v) cur fuel = Except.ok l
  | 0, cur, l, h, _ => by
    simp only [traverse] at h ⊢
    exact h
  | fuel + 1, none, l, h, _ => by
    simp only [traverse] at h ⊢
    exact h
  | fuel + 1, some s, l, h, hk => by
    simp only [traverse] at h ⊢
    by_cases hs : s = ""
    · rw [if_pos hs] at h ⊢
      exact h
    · rw [if_neg hs] at h ⊢
      cases hobj : objects s with
      | none =>
        rw [hobj] at h
        simp at h
      | some o =>
        cases o with
        | blob b =>
          rw [hobj] at h
          simp at h
        | commit c =>
          rw [hobj] at h
          have h2 : (match traverse objects c.parent fuel with
              | Except.ok l2 => Except.ok ((s, c) :: l2)
              | Except.error e => Except.error e) = Except.ok l := h
          cases hrec : traverse objects c.parent fuel with
          | error e =>
            rw [hrec] at h2
            simp at h2
          | ok l' =>
            rw [hrec] at h2
            simp at h2
            subst h2
            rw [List.map_cons, List.mem_cons, not_or] at hk
            have hks : s ≠ k := fun he => hk.1 he.symm
            rw [setObj_ne objects k v s hks, hobj]
            show (match traverse (setObj objects k v) c.parent fuel with
              | Except.ok l2 => Except.ok ((s, c) :: l2)
              | Except.error e => Except.error e) = Except.ok ((s, c) :: l')
            rw [traverse_update objects k v fuel c.parent l' hrec hk.2]

/-- One traversal step: a truthy head naming a stored commit yields
that commit and then whatever its parent chain yields. -/
theorem traverse_cons (objects : String → Option Obj) (h1 : String) (c1 : Commit)
    (acc : List (String × Commit)) (f : Nat)
    (hne1 : h1 ≠ "")
    (hself : objects h1 = some (Obj.commit c1))
    (hrec : traverse objects c1.parent f = Except.ok acc) :
    traverse objects (some h1) (f + 1) = Except.ok ((h1, c1) :: acc) := by
  simp only [traverse]
  rw [if_neg hne1, hself]
  show (match traverse objects c1.parent f with
    | Except.ok l2 => Except.ok ((h1, c1) :: l2)
    | Except.error e => Except.error e) = Except.ok ((h1, c1) :: acc)
  rw [hrec]

/-- The length of the predicted commit chain equals the number of
commits performed. -/
theorem histFrom_length (pairs : List (String × String)) :
    ∀ (parent0 : Option String) (index0 : List IndexEntry),
      (histFrom hashObject parent0 index0 pairs).length = pairs.length := by
  induction pairs with
  | nil => intro parent0 index0; rfl
  | cons p rest ih =>
    obtain ⟨ts, msg⟩ := p
    intro parent0 index0
    simp only [histFrom, List.length_cons, ih]

/-- Chain lemma: a sequence of commits on a state whose head already
traverses to `acc` extends the traversal by the new commits, most
recent first, provided the new commit hashes are pairwise distinct,
absent from the existing history, and nonempty. -/
theorem commitN_chain (pairs : List (String × String)) :
    ∀ (fs : FS) (index : List IndexEntry) (acc : List (String × Commit)),
      fs.indexFile = some index →
      (∀ f, acc.length < f →
        traverse fs.objects (getCurrentHead fs) f = Except.ok acc) →
      ((histFrom hashObject (getCurrentHead fs) index pairs).map Prod.fst
          ++ acc.map Prod.fst).Nodup →
      (∀ x ∈ (histFrom hashObject (getCurrentHead fs) index pairs).map Prod.fst,
        x ≠ "") →
      ∀ fuel, acc.length + pairs.length < fuel →
        traverse (commitN hashObject fs pairs).objects
            (getCurrentHead (commitN hashObject fs pairs)) fuel
          = Except.ok
              ((histFrom hashObject (getCurrentHead fs) index pairs).reverse
                ++ acc) := by
  induction pairs with
  | nil =>
    intro fs index acc hi hbase hnd hne fuel hf
    have hb := hbase fuel (by simpa using hf)
    simpa [commitN, histFrom] using hb
  | cons p rest ih =>
    obtain ⟨ts, msg⟩ := p
    intro fs index acc hi hbase hnd hne fuel hf
    have hcs := commit_some hashObject fs ts msg index hi
    have hhist : histFrom hashObject (getCurrentHead fs) index ((ts, msg) :: rest)
        = (hashObject (serializeCommit (commitRecord fs ts msg index)),
            commitRecord fs ts msg index)
          :: histFrom hashObject
              (some (hashObject (serializeCommit (commitRecord fs ts msg index))))
              ([] : List IndexEntry) rest := rfl
    have hcn : commitN hashObject fs ((ts, msg) :: rest)
        = commitN hashObject (commit hashObject fs ts msg).1 rest := rfl
    have hobj' : (commit hashObject fs ts msg).1.objects
        = setObj fs.objects
            (hashObject (serializeCommit (commitRecord fs ts msg index)))
            (Obj.commit (commitRecord fs ts msg index)) := by
      rw [hcs]
    have hhead' : getCurrentHead (commit hashObject fs ts msg).1
        = some (hashObject (serializeCommit (commitRecord fs ts msg index))) := by
      rw [hcs]
      rfl
    have hidx' : (commit hashObject fs ts msg).1.indexFile
        = some ([] : List IndexEntry) := by
      rw [hcs]
    have hne1 : hashObject (serializeCommit (commitRecord fs ts msg index)) ≠ "" := by
      apply hne
      rw [hhist, List.map_cons]
      exact List.mem_cons_self _ _
    have hnotacc : hashObject (serializeCommit (commitRecord fs ts msg index))
        ∉ acc.map Prod.fst := by
      rw [hhist, List.map_cons, List.cons_append, List.nodup_cons] at hnd
      exact fun hmem => hnd.1 (List.mem_append_right _ hmem)
    have hbase' : ∀ f,
        (((hashObject (serializeCommit (commitRecord fs ts msg index)),
            commitRecord fs ts msg index) :: acc) : List (String × Commit)).length < f →
        traverse (commit hashObject fs ts msg).1.objects
            (getCurrentHead (commit hashObject fs ts msg).1) f
          = Except.ok
              ((hashObject (serializeCommit (commitRecord fs ts msg index)),
                commitRecord fs ts msg index) :: acc) := by
      intro f hf'
      simp only [List.length_cons] at hf'
      obtain ⟨f', rfl⟩ : ∃ f'', f = f'' + 1 := ⟨f - 1, by omega⟩
      rw [hhead']
      apply traverse_cons
      · exact hne1
      · rw [hobj']
        exact setObj_self _ _ _
      · rw [hobj']
        exact traverse_update fs.objects
          (hashObject (serializeCommit (commitRecord fs ts msg index)))
          (Obj.commit (commitRecord fs ts msg index)) f' (getCurrentHead fs) acc
          (hbase f' (by omega)) hnotacc
    have hnd' : ((histFrom hashObject
          (getCurrentHead (commit hashObject fs ts msg).1)
          ([] : List IndexEntry) rest).map Prod.fst
        ++ (((hashObject (serializeCommit (commitRecord fs ts msg index)),
              commitRecord fs ts msg index) :: acc)).map Prod.fst).Nodup := by
      rw [hhead', List.map_cons]
      rw [hhist, List.map_cons, List.cons_append] at hnd
      exact List.perm_middle.symm.nodup hnd
    have hne' : ∀ x ∈ (histFrom hashObject
          (getCurrentHead (commit hashObject fs ts msg).1)
          ([] : List IndexEntry) rest).map Prod.fst, x ≠ "" := by
      rw [hhead']
      intro x hx
      apply hne
      rw [hhist, List.map_cons]
      exact List.mem_cons_of_mem _ hx
    have hih := ih (commit hashObject fs ts msg).1 ([] : List IndexEntry)
      ((hashObject (serializeCommit (commitRecord fs ts msg index)),
          commitRecord fs ts msg index) :: acc)
      hidx' hbase' hnd' hne' fuel
      (by simp only [List.length_cons, List.length_cons] at hf ⊢; omega)
    rw [hhead'] at hih
    rw [hcn, hhist]
    simpa [List.reverse_cons, List.append_assoc] using hih

theorem c9_empty_commit_succeeds_witness :
    (commit idHash freshFS "t0" "empty").2
        = Except.ok (idHash (serializeCommit
            (commitRecord freshFS "t0" "empty" ([] : List IndexEntry))))
    ∧ (commit idHash freshFS "t0" "empty").1.headFile
        = some (idHash (serializeCommit
            (commitRecord freshFS "t0" "empty" ([] : List IndexEntry))))
    ∧ (commit idHash freshFS "t0" "empty").1.objects
        (idHash (serializeCommit (commitRecord freshFS "t0" "empty" ([] : List IndexEntry))))
      = some (Obj.commit (commitRecord freshFS "t0" "empty" ([] : List IndexEntry)))
    ∧ (commitRecord freshFS "t0" "empty" ([] : List IndexEntry)).files = [] :=
  c9_empty_commit_succeeds idHash freshFS "t0" "empty" rfl

/-- C8: starting from a repository with no commits (falsy head, as
`init` leaves it) and performing N successful commits, `log`'s
traversal from `HEAD` yields exactly N commits, most recent first —
provided the N commit hashes are pairwise distinct (no hash collision)
and none of them is the empty string. -/
theorem c8_history_length (fs : FS) (index : List IndexEntry)
    (pairs : List (String × String))
    (hh : jsTruthy (getCurrentHead fs) = false)
    (hi : fs.indexFile = some index)
    (hnd : ((histFrom hashObject (getCurrentHead fs) index pairs).map Prod.fst).Nodup)
    (hne : ∀ x ∈ (histFrom hashObject (getCurrentHead fs) index pairs).map Prod.fst,
      x ≠ "")
    (fuel : Nat) (hf : pairs.length < fuel) :
    log (commitN hashObject fs pairs) fuel
      = Except.ok ((histFrom hashObject (getCurrentHead fs) index pairs).reverse)
    ∧ ((histFrom hashObject (getCurrentHead fs) index pairs).reverse).length
      = pairs.length := by
  have hbase : ∀ f, (([] : List (String × Commit))).length < f →
      traverse fs.objects (getCurrentHead fs) f = Except.ok [] :=
    fun f _ => traverse_falsy fs.objects (getCurrentHead fs) f hh
  have h := commitN_chain hashObject pairs fs index [] hi hbase
    (by simpa using hnd) hne fuel (by simpa using hf)
  constructor
  · unfold log
    simpa using h
  · simp [histFrom_length]

theorem c8_history_length_witness :
    log (commitN idHash freshFS [("t1", "m1"), ("t2", "m2")]) 3
      = Except.ok ((histFrom idHash (getCurrentHead freshFS) []
          [("t1", "m1"), ("t2", "m2")]).reverse)
    ∧ ((histFrom idHash (getCurrentHead freshFS) []
          [("t1", "m1"), ("t2", "m2")]).reverse).length = 2 :=
  c8_history_length idHash freshFS [] [("t1", "m1"), ("t2", "m2")]
    rfl rfl (by decide) (by decide) 3 (by decide)

/-- C10: `getCurrentHead` is `null` exactly when the `HEAD` file is
absent; `init` on a fresh repository leaves `HEAD` present but holding
`""`; and every consumer treats `""` like `null`: both are falsy, a
commit built over an empty-string head stores a falsy parent, `log`
traverses to the empty history from either value, and `show` takes the
no-parent branch for a commit whose parent is `""`. -/
theorem c10_head_empty_vs_null :
    (∀ fs : FS, getCurrentHead fs = none ↔ fs.headFile = none)
    ∧ (∀ fs : FS, fs.headFile = none →
        (init fs).headFile = some "" ∧ getCurrentHead (init fs) = some "")
    ∧ jsTruthy (some "") = jsTruthy none
    ∧ (∀ (fs : FS) (ts message : String) (index : List IndexEntry),
        fs.headFile = some "" →
        (commitRecord fs ts message index).parent = some ""
        ∧ jsTruthy (commitRecord fs ts message index).parent = false)
    ∧ (∀ (objects : String → Option Obj) (fuel : Nat),
        traverse objects (some "") fuel = Except.ok []
        ∧ traverse objects none fuel = Except.ok [])
    ∧ (∀ (fs : FS) (h : String) (c : Commit),
        fs.objects h = some (Obj.commit c) → c.parent = some "" →
        showCommitDiff fs h = ([OutLine.changesHeader, OutLine.firstCommit], none)) := by
  refine ⟨fun fs => Iff.rfl, ?_, rfl, ?_, ?_, ?_⟩
  · intro fs hh
    unfold init getCurrentHead
    rw [hh]
    cases hidx : fs.indexFile <;> simp [hidx]
  · intro fs ts message index hh
    constructor
    · simp [commitRecord, getCurrentHead, hh]
    · simp [commitRecord, getCurrentHead, hh, jsTruthy]
  · intro objects fuel
    exact ⟨traverse_falsy objects (some "") fuel rfl,
      traverse_falsy objects none fuel rfl⟩
  · intro fs h c hobj hp
    unfold showCommitDiff getCommitData
    rw [hobj]
    show (match c.parent with
      | some parentCommitHash =>
        if parentCommitHash = "" then
          ([OutLine.changesHeader, OutLine.firstCommit], none)
        else
          match fs.objects parentCommitHash with
          | none => ([OutLine.changesHeader, OutLine.failedFetch],
              some JsError.syntaxError)
          | some (Obj.blob _) => ([OutLine.changesHeader], some JsError.syntaxError)
          | some (Obj.commit parentCommitData) =>
            (OutLine.changesHeader :: (showFiles fs parentCommitData c.files).1,
              (showFiles fs parentCommitData c.files).2)
      | none => ([OutLine.changesHeader, OutLine.firstCommit], none))
      = ([OutLine.changesHeader, OutLine.firstCommit], none)
    rw [hp]
    rfl

theorem c10_head_empty_vs_null_witness :
    (getCurrentHead emptyFS = none ↔ emptyFS.headFile = none)
    ∧ (init emptyFS).headFile = some ""
    ∧ jsTruthy (some "") = jsTruthy none
    ∧ (commitRecord freshFS "t0" "first" []).parent = some ""
    ∧ traverse freshFS.objects (some "") 5 = Except.ok []
    ∧ showCommitDiff fsShow "h1"
      = ([OutLine.changesHeader, OutLine.firstCommit], none) :=
  ⟨c10_head_empty_vs_null.1 emptyFS,
   (c10_head_empty_vs_null.2.1 emptyFS rfl).1,
   c10_head_empty_vs_null.2.2.1,
   (c10_head_empty_vs_null.2.2.2.1 freshFS "t0" "first" [] rfl).1,
   (c10_head_empty_vs_null.2.2.2.2.1 freshFS.objects 5).1,
   c10_head_empty_vs_null.2.2.2.2.2 fsShow "h1" cFirst rfl rfl⟩

end Groot
